import Mathlib

/-!
Shallow embedding of `src/streamlit-app.py` from the
`paginas-semelhantes` repository: detection of keyword cannibalization
among landing pages, from Google Search Console (GSC) export data.

The embedding follows the Python source:

* `Row` models one CSV data row with the columns `Landing Page`,
  `Query` and `Url Clicks`.
* `validate_and_clean_data` models the pandas cleaning pipeline of the
  function of the same name: drop duplicate rows, strip trailing
  slashes from the page URL, lowercase the query, and keep only rows
  whose click count is at least zero.  The `dropna` step is a no-op in
  this embedding because `Row` fields are total values.
* `group_data` models the `groupby('Landing Page')` aggregation: the
  queries of each page are collected into a set, its clicks are
  summed, and the grouped table is keyed in ascending page order
  (pandas sorts the group keys).
* `keywords_similares` models the per-row similarity search of the
  function of the same name, including the minimum-keyword guard, the
  source-denominator ratio test, the `idxmax` / `max` representative
  choice over `todas_urls`, and the final filtering of the kept URL
  out of the similar list.
* `resultados_filtrados` models the rows `main` actually emits: only
  rows whose list of similar URLs is non-empty.

The similarity threshold is modelled as a rational number; Python uses
floating-point division, but every ratio involved is an exact small
fraction, so the rational model is faithful for the stated properties.
The ratio is built with `Rat.divInt` (proved equal to cast division in
`percentual_similaridade_eq_div`) so that concrete runs reduce inside
the the kernel.  Python's `list(set)` conversion is modelled by listing the
set in ascending lexicographic order (`sortKeywords`), and the
ascending key order of pandas `groupby` uses the same order `strLe`,
a computable lexicographic order on strings.
-/

/-- Lexicographic comparison of character lists, by character code. -/
def leChars : List Char → List Char → Bool
  | [], _ => true
  | _ :: _, [] => false
  | a :: as, b :: bs => if a < b then true else if b < a then false else leChars as bs

/-- Lexicographic order on strings, used as the fixed iteration order
over page identifiers. -/
def strLe (a b : String) : Prop := leChars a.data b.data = true

instance : DecidableRel strLe :=
  fun a b => inferInstanceAs (Decidable (leChars a.data b.data = true))

/-- `leChars` unfolded on two non-empty lists, stated as a definition so
that the order instances below can stay in the definition zone. -/
def leCharsIff (a b : Char) (as bs : List Char) :
    leChars (a :: as) (b :: bs) = true ↔ a < b ∨ (a = b ∧ leChars as bs = true) := by
  by_cases hab : a < b
  · simp [leChars, hab]
  · by_cases hba : b < a
    · have hne : a ≠ b := fun h => absurd (h ▸ hba) (lt_irrefl a)
      simp [leChars, hab, hba, hne]
    · have heq : a = b := le_antisymm (not_lt.mp hba) (not_lt.mp hab)
      simp [leChars, hab, hba, heq]

/-- Totality of `leChars`, packaged as a definition for the instances. -/
def leCharsTotal : ∀ as bs, leChars as bs = true ∨ leChars bs as = true := by
  intro as
  induction as with
  | nil => intro bs; left; rfl
  | cons a t ih =>
    intro bs
    cases bs with
    | nil => right; rfl
    | cons b u =>
      by_cases hab : a < b
      · left; simp [leChars, hab]
      · by_cases hba : b < a
        · right; simp [leChars, hba, hab]
        · simpa [leChars, hab, hba] using ih u

instance : IsTotal String strLe := ⟨fun a b => leCharsTotal a.data b.data⟩

instance : IsTrans String strLe := by
  refine ⟨fun x y z h1 h2 => ?_⟩
  simp only [strLe] at h1 h2 ⊢
  revert h1 h2
  generalize x.data = as
  generalize y.data = bs
  generalize z.data = cs
  induction as generalizing bs cs with
  | nil => intro _ _; rfl
  | cons a t ih =>
    intro h1 h2
    cases bs with
    | nil => simp [leChars] at h1
    | cons b u =>
      cases cs with
      | nil => simp [leChars] at h2
      | cons c v =>
        rw [leCharsIff] at h1 h2 ⊢
        rcases h1 with h1 | ⟨he1, h1⟩
        · rcases h2 with h2 | ⟨he2, h2⟩
          · exact Or.inl (lt_trans h1 h2)
          · exact Or.inl (he2 ▸ h1)
        · rcases h2 with h2 | ⟨he2, h2⟩
          · exact Or.inl (he1 ▸ h2)
          · exact Or.inr ⟨he1.trans he2, ih u v h1 h2⟩

instance : IsAntisymm String strLe := by
  refine ⟨fun x y h1 h2 => ?_⟩
  simp only [strLe] at h1 h2
  have hdata : x.data = y.data := by
    revert h1 h2
    generalize x.data = as
    generalize y.data = bs
    induction as generalizing bs with
    | nil =>
      intro _ h2
      cases bs with
      | nil => rfl
      | cons b u => simp [leChars] at h2
    | cons a t ih =>
      intro h1 h2
      cases bs with
      | nil => simp [leChars] at h1
      | cons b u =>
        rw [leCharsIff] at h1 h2
        rcases h1 with h1 | ⟨he1, h1⟩
        · rcases h2 with h2 | ⟨he2, h2⟩
          · exact absurd h2 (lt_asymm h1)
          · exact absurd (he2 ▸ h1) (lt_irrefl _)
        · rcases h2 with h2 | ⟨he2, h2⟩
          · exact absurd (he1 ▸ h2) (lt_irrefl _)
          · rw [he1, ih u h1 h2]
  cases x with
  | mk xs => cases y with
    | mk ys => exact congrArg String.mk hdata

instance : IsRefl String strLe := ⟨fun a => (leCharsTotal a.data a.data).elim id id⟩

/-- The canonical list of a keyword set, in ascending `strLe` order:
the embedding of Python's `list(kwds_compartilhadas)` set-to-list
conversion.  Defined by lifting an insertion sort over the underlying
multiset, so that concrete tables reduce inside the kernel. -/
def sortKeywordsM (m : Multiset String) : List String :=
  Quot.liftOn m (fun l => List.insertionSort (fun a b => strLe a b) l)
    (fun l1 l2 h =>
      List.eq_of_perm_of_sorted
        ((List.perm_insertionSort _ l1).trans
          (h.trans (List.perm_insertionSort _ l2).symm))
        (List.sorted_insertionSort _ l1) (List.sorted_insertionSort _ l2))

/-- `sortKeywords` on a finite keyword set: the list of its elements in
ascending `strLe` order. -/
def sortKeywords (s : Finset String) : List String :=
  sortKeywordsM s.val

/-- One validated GSC data row: `Landing Page`, `Query`, `Url Clicks`. -/
structure Row where
  page : String
  query : String
  clicks : Int
deriving DecidableEq

/-- `str.rstrip('/')` applied to the `Landing Page` column. -/
def rstripSlash (s : String) : String :=
  ⟨(s.data.reverse.dropWhile (fun c => c == '/')).reverse⟩

/-- `str.lower()` applied to the `Query` column. -/
def lowerStr (s : String) : String :=
  ⟨s.data.map Char.toLower⟩

/-- The per-row normalization of `validate_and_clean_data`: trailing
slashes removed from the page, query lowercased, clicks unchanged. -/
def normalizeRow (r : Row) : Row :=
  ⟨rstripSlash r.page, lowerStr r.query, r.clicks⟩

/-- `validate_and_clean_data` from the source: drop duplicates, then
canonicalize pages and queries, then keep only rows with
`Url Clicks >= 0`.  Rows with negative clicks are removed from the
table; no error is raised. -/
def validate_and_clean_data (rows : List Row) : List Row :=
  ((rows.eraseDups).map normalizeRow).filter (fun r => decide (0 ≤ r.clicks))

/-- One row of the grouped table `grouped_df`: a page together with its
aggregated keyword set (`Query` column) and summed clicks
(`Url Clicks` column). -/
structure UrlProfile where
  page : String
  query : Finset String
  urlClicks : Int
deriving DecidableEq

/-- One step of the `groupby` aggregation: merge a data row into the
accumulated per-page table.  The first entry holding the row's page is
updated; a row for a fresh page is appended at the end. -/
def insertRow (acc : List UrlProfile) (r : Row) : List UrlProfile :=
  match acc with
  | [] => [⟨r.page, {r.query}, r.clicks⟩]
  | e :: rest =>
    if r.page = e.page then
      ⟨e.page, insert r.query e.query, e.urlClicks + r.clicks⟩ :: rest
    else
      e :: insertRow rest r

/-- `group_data` from the source: group the rows by `Landing Page`,
collecting the queries of each page into a set and summing its clicks;
the grouped table is keyed in ascending page order, as pandas
`groupby` sorts the group keys. -/
def group_data (rows : List Row) : List UrlProfile :=
  List.insertionSort (fun a b => strLe a.page b.page) (rows.foldl insertRow [])

/-- Modelled from the spec: the keyword set the profile of page `p`
should hold, namely the set union of the queries of all rows for `p`.
Used to state the aggregation claim about `group_data`. -/
def profileKeywords (rows : List Row) (p : String) : Finset String :=
  ((rows.filter (fun r => r.page == p)).map Row.query).toFinset

/-- Modelled from the spec: the click total the profile of page `p`
should hold, namely the sum of the clicks of all rows for `p`.
Used to state the aggregation claim about `group_data`. -/
def profileClicks (rows : List Row) (p : String) : Int :=
  ((rows.filter (fun r => r.page == p)).map Row.clicks).sum

/-- `grouped_df.loc[p]`-style lookup: the first entry of the grouped
table holding page `p`. -/
def findEntry (acc : List UrlProfile) (p : String) : Option UrlProfile :=
  acc.find? (fun e => e.page == p)

/-- One entry of the `similares_info` list built by
`keywords_similares`: the similar URL, the shared terms and their
count. -/
structure SimilarInfo where
  url : String
  termos : List String
  quantidade : Nat
deriving DecidableEq

/-- `percentual_similaridade` from the source:
`len(kwds_atuais & queries) / len(kwds_atuais)` — the denominator is
always the source page's keyword-set size.  Stated with `Rat.divInt`
(the rational of an integer fraction) so that concrete tables reduce;
`percentual_similaridade_eq_div` proves it equal to cast division. -/
def percentual_similaridade (kwdsAtuais queries : Finset String) : ℚ :=
  Rat.divInt (((kwdsAtuais ∩ queries).card : Int)) ((kwdsAtuais.card : Int))

/-- The body of the candidate loop of `keywords_similares` for a single
grouped row `e`: skip the source page itself, test the ratio against
the threshold, and record the shared terms and their count on
success. -/
def simEntry (urlAtual : String) (kwdsAtuais : Finset String) (percent : ℚ)
    (e : UrlProfile) : Option SimilarInfo :=
  if e.page ≠ urlAtual then
    if percent ≤ percentual_similaridade kwdsAtuais e.query then
      some ⟨e.page, sortKeywords (kwdsAtuais ∩ e.query), (kwdsAtuais ∩ e.query).card⟩
    else none
  else none

/-- The `similares_info` list of `keywords_similares`: the loop over
every row of the grouped table, in table order. -/
def similares_info (urlAtual : String) (kwdsAtuais : Finset String) (percent : ℚ)
    (grouped : List UrlProfile) : List SimilarInfo :=
  grouped.filterMap (simEntry urlAtual kwdsAtuais percent)

/-- `grouped_df.loc[u, 'Url Clicks']`: the clicks of page `u` in the
grouped table (`0` as an unreachable default for absent pages). -/
def clicksOf (grouped : List UrlProfile) (u : String) : Int :=
  match findEntry grouped u with
  | some e => e.urlClicks
  | none => 0

/-- `todas_urls` from the source: the current URL followed by every
similar URL, in loop order. -/
def todas_urls (grouped : List UrlProfile) (percent : ℚ) (row : UrlProfile) :
    List String :=
  row.page :: (similares_info row.page row.query percent grouped).map SimilarInfo.url

/-- `cliques_urls` from the source: `todas_urls` paired with each
page's clicks, in the same order. -/
def cliques_urls (grouped : List UrlProfile) (percent : ℚ) (row : UrlProfile) :
    List (String × Int) :=
  (todas_urls grouped percent row).map (fun u => (u, clicksOf grouped u))

/-- The running state of a pandas `idxmax` scan: keep the current best
pair, replacing it only on a strictly larger value, so the first
occurrence of the maximum wins. -/
def idxmaxFrom (best : String × Int) (l : List (String × Int)) : String × Int :=
  l.foldl (fun b e => if b.2 < e.2 then e else b) best

/-- `Series.idxmax`: the key of the first entry holding the maximum
value (`""` as an unreachable default for the empty series, where
pandas raises). -/
def idxmax : List (String × Int) → String
  | [] => ""
  | e :: rest => (idxmaxFrom e rest).1

/-- `Series.max`: the maximum value of the series (`0` as an
unreachable default for the empty series). -/
def seriesMax : List (String × Int) → Int
  | [] => 0
  | e :: rest => rest.foldl (fun m x => max m x.2) e.2

/-- The head of `cliques_urls`: the source page and its clicks. -/
def cliquesHead (grouped : List UrlProfile) (row : UrlProfile) : String × Int :=
  (row.page, clicksOf grouped row.page)

/-- The tail of `cliques_urls`: the similar URLs paired with their
clicks, in loop order. -/
def cliquesTail (grouped : List UrlProfile) (percent : ℚ) (row : UrlProfile) :
    List (String × Int) :=
  ((similares_info row.page row.query percent grouped).map SimilarInfo.url).map
    (fun u => (u, clicksOf grouped u))

/-- `url_a_manter` from the source: `cliques_urls.idxmax()`. -/
def url_a_manter (grouped : List UrlProfile) (percent : ℚ) (row : UrlProfile) :
    String :=
  idxmax (cliques_urls grouped percent row)

/-- `cliques_a_manter` from the source: `cliques_urls.max()`. -/
def cliques_a_manter (grouped : List UrlProfile) (percent : ℚ) (row : UrlProfile) :
    Int :=
  seriesMax (cliques_urls grouped percent row)

/-- `similares_final` from the source: the similar entries that are not
the URL being kept. -/
def similares_final (grouped : List UrlProfile) (percent : ℚ) (row : UrlProfile) :
    List SimilarInfo :=
  (similares_info row.page row.query percent grouped).filter
    (fun info => info.url != url_a_manter grouped percent row)

/-- The `pd.Series` returned by `keywords_similares` for one grouped
row: similar URLs, shared terms, shared-term counts, the URL to keep
and its clicks. -/
structure ResultRow where
  urlsSemelhantes : List String
  termosCompartilhados : List (List String)
  quantidadeTermos : List Nat
  urlAManter : String
  cliquesAManter : Int
deriving DecidableEq

/-- The empty result row returned by `keywords_similares` when the page
has fewer than 10 keywords or no similar URL was found. -/
def emptyResult (row : UrlProfile) : ResultRow :=
  ⟨[], [], [], row.page, row.urlClicks⟩

/-- `keywords_similares` from the source: pages with fewer than 10
keywords, and pages with no qualifying candidate, return the empty
row; otherwise the representative is chosen by `idxmax` over
`todas_urls` and filtered out of the similar lists. -/
def keywords_similares (grouped : List UrlProfile) (percent : ℚ)
    (row : UrlProfile) : ResultRow :=
  if row.query.card < 10 then emptyResult row
  else if similares_info row.page row.query percent grouped = [] then emptyResult row
  else
    ⟨(similares_final grouped percent row).map SimilarInfo.url,
     (similares_final grouped percent row).map SimilarInfo.termos,
     (similares_final grouped percent row).map SimilarInfo.quantidade,
     url_a_manter grouped percent row,
     cliques_a_manter grouped percent row⟩

/-- `resultados` from `main`: `keywords_similares` applied to every row
of the grouped table, keyed by page. -/
def resultados (grouped : List UrlProfile) (percent : ℚ) :
    List (String × ResultRow) :=
  grouped.map (fun e => (e.page, keywords_similares grouped percent e))

/-- `resultados_filtrados` from `main`: only the rows whose list of
similar URLs is non-empty are kept in the emitted output. -/
def resultados_filtrados (grouped : List UrlProfile) (percent : ℚ) :
    List (String × ResultRow) :=
  (resultados grouped percent).filter
    (fun pr => decide (0 < pr.2.urlsSemelhantes.length))

/-- Ten keywords, used by the concrete test tables. -/
def kws10 : Finset String :=
  {"k0", "k1", "k2", "k3", "k4", "k5", "k6", "k7", "k8", "k9"}

/-- Five of the ten keywords of `kws10`. -/
def kws5 : Finset String := {"k0", "k1", "k2", "k3", "k4"}

/-- Twenty keywords extending `kws10`. -/
def kws20 : Finset String :=
  kws10 ∪ {"m0", "m1", "m2", "m3", "m4", "m5", "m6", "m7", "m8", "m9"}

/-- Grouped table where page `b` is pulled into the groups of both `a`
and `c` (no claiming happens between rows). -/
def exGrouped1 : List UrlProfile :=
  [⟨"a", kws10, 100⟩, ⟨"b", kws5, 1⟩, ⟨"c", kws10, 90⟩]

/-- Grouped table where the 5-keyword page `b` has the most clicks and
is chosen as the URL to keep by pages `a` and `c`. -/
def exGrouped2 : List UrlProfile :=
  [⟨"a", kws10, 10⟩, ⟨"b", kws5, 100⟩, ⟨"c", kws10, 20⟩]

/-- Grouped table where pages `a` and `b` share zero keywords. -/
def exGrouped3 : List UrlProfile :=
  [⟨"a", kws10, 100⟩, ⟨"b", {"z0"}, 1⟩]

/-- Grouped table exhibiting the asymmetry of the ratio test: `a`
shares all of its 10 keywords with `b`, while `b` shares only half of
its 20. -/
def exGrouped4 : List UrlProfile :=
  [⟨"a", kws10, 5⟩, ⟨"b", kws20, 7⟩]

/-- Grouped table where the 5-keyword page `d` is pulled in as a member
of `a`'s group. -/
def exGrouped5 : List UrlProfile :=
  [⟨"a", kws10, 100⟩, ⟨"d", kws5, 1⟩]

/-- Input rows with one negative click count among valid rows. -/
def exRows9 : List Row :=
  [⟨"/a/", "Q1", -5⟩, ⟨"/b", "q2", 3⟩]

/-- The output row `a` of `resultados_filtrados exGrouped5 (1/2)`. -/
def exPr5 : String × ResultRow :=
  ("a", ⟨["d"], [["k0", "k1", "k2", "k3", "k4"]], [5], "a", 100⟩)

theorem sortKeywordsM_length (m : Multiset String) :
    (sortKeywordsM m).length = Multiset.card m := by
  induction m using Quot.inductionOn with
  | h l => exact (List.perm_insertionSort (fun a b => strLe a b) l).length_eq

theorem sortKeywordsM_mem (m : Multiset String) (x : String) :
    x ∈ sortKeywordsM m ↔ x ∈ m := by
  induction m using Quot.inductionOn with
  | h l =>
    exact (List.perm_insertionSort (fun a b => strLe a b) l).mem_iff.trans
      Multiset.mem_coe.symm

theorem sortKeywords_length (s : Finset String) : (sortKeywords s).length = s.card :=
  sortKeywordsM_length s.val

theorem sortKeywords_mem (s : Finset String) (x : String) :
    x ∈ sortKeywords s ↔ x ∈ s := by
  rw [Finset.mem_def]
  exact sortKeywordsM_mem s.val x

theorem percentual_similaridade_eq_div (k q : Finset String) :
    percentual_similaridade k q = (((k ∩ q).card : ℚ)) / ((k.card : ℚ)) := by
  unfold percentual_similaridade
  rw [Rat.divInt_eq_div]
  simp only [Int.cast_natCast]

theorem simEntry_eq_some {urlAtual : String} {kA : Finset String} {percent : ℚ}
    {e : UrlProfile} {info : SimilarInfo} :
    simEntry urlAtual kA percent e = some info ↔
      e.page ≠ urlAtual ∧ percent ≤ percentual_similaridade kA e.query ∧
        info = ⟨e.page, sortKeywords (kA ∩ e.query), (kA ∩ e.query).card⟩ := by
  unfold simEntry
  split_ifs with h1 h2
  · simp [h1, h2, eq_comm]
  · simp [h1, h2]
  · simp [h1]

theorem mem_similares_info {urlAtual : String} {kA : Finset String} {percent : ℚ}
    {grouped : List UrlProfile} {info : SimilarInfo} :
    info ∈ similares_info urlAtual kA percent grouped ↔
      ∃ e, e ∈ grouped ∧ e.page ≠ urlAtual ∧
        percent ≤ percentual_similaridade kA e.query ∧
        info = ⟨e.page, sortKeywords (kA ∩ e.query), (kA ∩ e.query).card⟩ := by
  unfold similares_info
  rw [List.mem_filterMap]
  constructor
  · rintro ⟨e, he, hsome⟩
    rcases simEntry_eq_some.mp hsome with ⟨h1, h2, h3⟩
    exact ⟨e, he, h1, h2, h3⟩
  · rintro ⟨e, he, h1, h2, h3⟩
    exact ⟨e, he, simEntry_eq_some.mpr ⟨h1, h2, h3⟩⟩

theorem mem_url_similares_info {urlAtual : String} {kA : Finset String} {percent : ℚ}
    {grouped : List UrlProfile} {u : String} :
    u ∈ (similares_info urlAtual kA percent grouped).map SimilarInfo.url ↔
      ∃ e, e ∈ grouped ∧ e.page = u ∧ u ≠ urlAtual ∧
        percent ≤ percentual_similaridade kA e.query := by
  rw [List.mem_map]
  constructor
  · rintro ⟨info, hinfo, hurl⟩
    rcases mem_similares_info.mp hinfo with ⟨e, he, hne, hle, hinfoeq⟩
    have hpage : e.page = u := by rw [hinfoeq] at hurl; exact hurl
    exact ⟨e, he, hpage, hpage ▸ hne, hle⟩
  · rintro ⟨e, he, hpage, hne, hle⟩
    refine ⟨⟨e.page, sortKeywords (kA ∩ e.query), (kA ∩ e.query).card⟩,
      mem_similares_info.mpr ⟨e, he, hpage.symm ▸ hne, hle, rfl⟩, hpage⟩

theorem keywords_similares_small (grouped : List UrlProfile) (percent : ℚ)
    (row : UrlProfile) (h : row.query.card < 10) :
    keywords_similares grouped percent row = emptyResult row := by
  unfold keywords_similares
  rw [if_pos h]

theorem keywords_similares_no_sim (grouped : List UrlProfile) (percent : ℚ)
    (row : UrlProfile)
    (h : similares_info row.page row.query percent grouped = []) :
    keywords_similares grouped percent row = emptyResult row := by
  unfold keywords_similares
  by_cases h1 : row.query.card < 10
  · rw [if_pos h1]
  · rw [if_neg h1, if_pos h]

theorem keywords_similares_of_ge (grouped : List UrlProfile) (percent : ℚ)
    (row : UrlProfile) (h10 : 10 ≤ row.query.card)
    (hne : similares_info row.page row.query percent grouped ≠ []) :
    keywords_similares grouped percent row =
      ⟨(similares_final grouped percent row).map SimilarInfo.url,
       (similares_final grouped percent row).map SimilarInfo.termos,
       (similares_final grouped percent row).map SimilarInfo.quantidade,
       url_a_manter grouped percent row,
       cliques_a_manter grouped percent row⟩ := by
  unfold keywords_similares
  rw [if_neg (Nat.not_lt.mpr h10), if_neg hne]

theorem keywords_similares_cases (grouped : List UrlProfile) (percent : ℚ)
    (row : UrlProfile) :
    keywords_similares grouped percent row = emptyResult row ∨
      (10 ≤ row.query.card ∧
        similares_info row.page row.query percent grouped ≠ [] ∧
        keywords_similares grouped percent row =
          ⟨(similares_final grouped percent row).map SimilarInfo.url,
           (similares_final grouped percent row).map SimilarInfo.termos,
           (similares_final grouped percent row).map SimilarInfo.quantidade,
           url_a_manter grouped percent row,
           cliques_a_manter grouped percent row⟩) := by
  by_cases h1 : row.query.card < 10
  · exact Or.inl (keywords_similares_small grouped percent row h1)
  · by_cases h2 : similares_info row.page row.query percent grouped = []
    · exact Or.inl (keywords_similares_no_sim grouped percent row h2)
    · exact Or.inr ⟨Nat.not_lt.mp h1, h2,
        keywords_similares_of_ge grouped percent row (Nat.not_lt.mp h1) h2⟩

theorem idxmaxFrom_mem : ∀ (l : List (String × Int)) (b : String × Int),
    idxmaxFrom b l ∈ b :: l := by
  intro l
  induction l with
  | nil => intro b; exact List.mem_cons_self _ _
  | cons e t ih =>
    intro b
    have hstep : idxmaxFrom b (e :: t) = idxmaxFrom (if b.2 < e.2 then e else b) t := rfl
    rw [hstep]
    have h := ih (if b.2 < e.2 then e else b)
    rw [List.mem_cons] at h
    rcases h with h | h
    · rw [h]
      split
      · exact List.mem_cons_of_mem _ (List.mem_cons_self _ _)
      · exact List.mem_cons_self _ _
    · exact List.mem_cons_of_mem _ (List.mem_cons_of_mem _ h)

theorem idxmaxFrom_le : ∀ (l : List (String × Int)) (b x : String × Int),
    x ∈ b :: l → x.2 ≤ (idxmaxFrom b l).2 := by
  intro l
  induction l with
  | nil =>
    intro b x hx
    rw [List.mem_singleton] at hx
    rw [hx]
    exact le_refl _
  | cons e t ih =>
    intro b x hx
    have hstep : idxmaxFrom b (e :: t) = idxmaxFrom (if b.2 < e.2 then e else b) t := rfl
    rw [hstep]
    have hb' : b.2 ≤ (if b.2 < e.2 then e else b).2 := by
      split
      · exact le_of_lt (by assumption)
      · exact le_refl _
    have he' : e.2 ≤ (if b.2 < e.2 then e else b).2 := by
      split
      · exact le_refl _
      · exact Int.not_lt.mp (by assumption)
    have hbest := ih (if b.2 < e.2 then e else b) (if b.2 < e.2 then e else b)
      (List.mem_cons_self _ _)
    rw [List.mem_cons] at hx
    rcases hx with hx | hx
    · rw [hx]; exact le_trans hb' hbest
    · rw [List.mem_cons] at hx
      rcases hx with hx | hx
      · rw [hx]; exact le_trans he' hbest
      · exact ih _ x (List.mem_cons_of_mem _ hx)

theorem idxmaxFrom_snd : ∀ (l : List (String × Int)) (b : String × Int),
    (idxmaxFrom b l).2 = l.foldl (fun m x => max m x.2) b.2 := by
  intro l
  induction l with
  | nil => intro b; rfl
  | cons e t ih =>
    intro b
    have hstep : idxmaxFrom b (e :: t) = idxmaxFrom (if b.2 < e.2 then e else b) t := rfl
    rw [hstep, ih]
    have hval : (if b.2 < e.2 then e else b).2 = max b.2 e.2 := by
      split
      · exact (max_eq_right (le_of_lt (by assumption))).symm
      · exact (max_eq_left (Int.not_lt.mp (by assumption))).symm
    rw [hval]
    rfl

theorem idxmaxFrom_find : ∀ (l : List (String × Int)) (b : String × Int),
    (b :: l).find? (fun x => x.2 == (idxmaxFrom b l).2) = some (idxmaxFrom b l) := by
  intro l
  induction l with
  | nil =>
    intro b
    show List.find? _ [b] = some b
    rw [List.find?_cons_of_pos]
    exact beq_self_eq_true _
  | cons e t ih =>
    intro b
    have hstep : idxmaxFrom b (e :: t) = idxmaxFrom (if b.2 < e.2 then e else b) t := rfl
    rw [hstep]
    by_cases hbe : b.2 < e.2
    · rw [if_pos hbe]
      have he_le : e.2 ≤ (idxmaxFrom e t).2 :=
        idxmaxFrom_le t e e (List.mem_cons_self _ _)
      have hb_ne : (b.2 == (idxmaxFrom e t).2) = false := by
        rw [beq_eq_false_iff_ne]
        exact ne_of_lt (lt_of_lt_of_le hbe he_le)
      rw [List.find?_cons_of_neg _ (by rw [hb_ne]; exact Bool.false_ne_true)]
      exact ih e
    · rw [if_neg hbe]
      have hIH := ih b
      by_cases hpb : b.2 = (idxmaxFrom b t).2
      · have hfb : List.find? (fun x => x.2 == (idxmaxFrom b t).2) (b :: t) = some b := by
          rw [List.find?_cons_of_pos]
          rw [beq_iff_eq]
          exact hpb
        have hRb : idxmaxFrom b t = b := Option.some_inj.mp (hIH.symm.trans hfb)
        rw [hRb]
        rw [List.find?_cons_of_pos]
        rw [beq_iff_eq]
      · have hpbf : (b.2 == (idxmaxFrom b t).2) = false := by
          rw [beq_eq_false_iff_ne]; exact hpb
        have hfb_t : List.find? (fun x => x.2 == (idxmaxFrom b t).2) t =
            some (idxmaxFrom b t) := by
          rw [List.find?_cons_of_neg _ (by rw [hpbf]; exact Bool.false_ne_true)] at hIH
          exact hIH
        have hble : b.2 ≤ (idxmaxFrom b t).2 :=
          idxmaxFrom_le t b b (List.mem_cons_self _ _)
        have heb : e.2 ≤ b.2 := Int.not_lt.mp hbe
        have hpe : (e.2 == (idxmaxFrom b t).2) = false := by
          rw [beq_eq_false_iff_ne]
          intro heq
          exact hpb (le_antisymm hble (heq ▸ heb))
        rw [List.find?_cons_of_neg _ (by rw [hpbf]; exact Bool.false_ne_true)]
        rw [List.find?_cons_of_neg _ (by rw [hpe]; exact Bool.false_ne_true)]
        exact hfb_t

theorem find?_comp_map {α β : Type} (f : α → β) (p : β → Bool) (l : List α) :
    (l.map f).find? p = (l.find? (fun a => p (f a))).map f := by
  induction l with
  | nil => rfl
  | cons a t ih =>
    simp only [List.map_cons, List.find?_cons]
    by_cases h : p (f a) = true
    · simp [h]
    · simp [h, ih]

theorem cliques_urls_eq (grouped : List UrlProfile) (percent : ℚ) (row : UrlProfile) :
    cliques_urls grouped percent row =
      cliquesHead grouped row :: cliquesTail grouped percent row := rfl

theorem mem_cliques_snd (grouped : List UrlProfile) (percent : ℚ) (row : UrlProfile) :
    ∀ x ∈ cliques_urls grouped percent row, x.2 = clicksOf grouped x.1 := by
  intro x hx
  unfold cliques_urls at hx
  rw [List.mem_map] at hx
  rcases hx with ⟨u, _, rfl⟩
  rfl

theorem url_a_manter_eq (grouped : List UrlProfile) (percent : ℚ) (row : UrlProfile) :
    url_a_manter grouped percent row =
      (idxmaxFrom (cliquesHead grouped row) (cliquesTail grouped percent row)).1 := rfl

theorem cliques_a_manter_eq (grouped : List UrlProfile) (percent : ℚ) (row : UrlProfile) :
    cliques_a_manter grouped percent row =
      (idxmaxFrom (cliquesHead grouped row) (cliquesTail grouped percent row)).2 :=
  (idxmaxFrom_snd _ _).symm

theorem rep_clicks_eq (grouped : List UrlProfile) (percent : ℚ) (row : UrlProfile) :
    clicksOf grouped (url_a_manter grouped percent row) =
      cliques_a_manter grouped percent row := by
  have hmem : idxmaxFrom (cliquesHead grouped row) (cliquesTail grouped percent row) ∈
      cliques_urls grouped percent row :=
    idxmaxFrom_mem (cliquesTail grouped percent row) (cliquesHead grouped row)
  have hshape := mem_cliques_snd grouped percent row _ hmem
  rw [url_a_manter_eq, cliques_a_manter_eq, hshape]

theorem mem_similares_final {grouped : List UrlProfile} {percent : ℚ}
    {row : UrlProfile} {info : SimilarInfo} :
    info ∈ similares_final grouped percent row ↔
      info ∈ similares_info row.page row.query percent grouped ∧
        info.url ≠ url_a_manter grouped percent row := by
  unfold similares_final
  rw [List.mem_filter]
  simp [bne_iff_ne]

theorem urlAManter_not_mem (grouped : List UrlProfile) (percent : ℚ)
    (row : UrlProfile) :
    (keywords_similares grouped percent row).urlAManter ∉
      (keywords_similares grouped percent row).urlsSemelhantes := by
  rcases keywords_similares_cases grouped percent row with hcase | ⟨h10, hne, hcase⟩
  · rw [hcase]
    exact List.not_mem_nil _
  · rw [hcase]
    intro hmem
    replace hmem : url_a_manter grouped percent row ∈
        (similares_final grouped percent row).map SimilarInfo.url := hmem
    rw [List.mem_map] at hmem
    rcases hmem with ⟨info, hinfo, hurl⟩
    exact absurd hurl (mem_similares_final.mp hinfo).2

/-- C4: for every emitted group, the representative page's total clicks
are greater than or equal to the total clicks of every member of that
group. -/
theorem claim4_representative_optimal (grouped : List UrlProfile) (percent : ℚ)
    (row : UrlProfile) (u : String)
    (hu : u ∈ (keywords_similares grouped percent row).urlsSemelhantes) :
    clicksOf grouped u ≤
      clicksOf grouped ((keywords_similares grouped percent row).urlAManter) := by
  rcases keywords_similares_cases grouped percent row with hcase | ⟨h10, hne, hcase⟩
  · rw [hcase] at hu
    exact absurd hu (List.not_mem_nil u)
  · rw [hcase] at hu
    replace hu : u ∈ (similares_final grouped percent row).map SimilarInfo.url := hu
    rw [hcase]
    show clicksOf grouped u ≤ clicksOf grouped (url_a_manter grouped percent row)
    rw [List.mem_map] at hu
    rcases hu with ⟨info, hinfo, hurl⟩
    have hsims : info ∈ similares_info row.page row.query percent grouped :=
      (mem_similares_final.mp hinfo).1
    have hmem_tl : (u, clicksOf grouped u) ∈ cliquesTail grouped percent row := by
      unfold cliquesTail
      exact List.mem_map_of_mem _ (List.mem_map.mpr ⟨info, hsims, hurl⟩)
    have hle := idxmaxFrom_le (cliquesTail grouped percent row) (cliquesHead grouped row)
      (u, clicksOf grouped u) (List.mem_cons_of_mem _ hmem_tl)
    rw [rep_clicks_eq, cliques_a_manter_eq]
    exact hle

theorem claim4_witness :
    clicksOf exGrouped1 "b" ≤
      clicksOf exGrouped1
        ((keywords_similares exGrouped1 (Rat.divInt 1 2) ⟨"a", kws10, 100⟩).urlAManter) :=
  claim4_representative_optimal exGrouped1 (Rat.divInt 1 2) ⟨"a", kws10, 100⟩ "b"
    (by decide)

/-- C6: when several pages of the candidate member set share the
maximum click value, the representative chosen is the first page in the
fixed iteration order over `todas_urls` (the source page first, then
the qualifying candidates in grouped-table order) whose clicks equal
the maximum: `idxmax` keeps the first occurrence of the maximum. -/
theorem claim6_tiebreak (grouped : List UrlProfile) (percent : ℚ) (row : UrlProfile)
    (h10 : 10 ≤ row.query.card)
    (hne : similares_info row.page row.query percent grouped ≠ []) :
    (todas_urls grouped percent row).find?
        (fun u => clicksOf grouped u ==
          (keywords_similares grouped percent row).cliquesAManter) =
      some ((keywords_similares grouped percent row).urlAManter) := by
  rw [keywords_similares_of_ge grouped percent row h10 hne]
  show (todas_urls grouped percent row).find?
      (fun u => clicksOf grouped u == cliques_a_manter grouped percent row) =
    some (url_a_manter grouped percent row)
  have hpair := idxmaxFrom_find (cliquesTail grouped percent row) (cliquesHead grouped row)
  have hmap := find?_comp_map (fun u => (u, clicksOf grouped u))
    (fun x => x.2 ==
      (idxmaxFrom (cliquesHead grouped row) (cliquesTail grouped percent row)).2)
    (todas_urls grouped percent row)
  have hcombined := hmap.symm.trans
    (show ((todas_urls grouped percent row).map (fun u => (u, clicksOf grouped u))).find?
        (fun x => x.2 ==
          (idxmaxFrom (cliquesHead grouped row) (cliquesTail grouped percent row)).2) =
      some (idxmaxFrom (cliquesHead grouped row) (cliquesTail grouped percent row))
      from hpair)
  rcases Option.map_eq_some'.mp hcombined with ⟨u, hfind, hfu⟩
  have hu1 : u = (idxmaxFrom (cliquesHead grouped row) (cliquesTail grouped percent row)).1 :=
    congrArg Prod.fst hfu
  rw [url_a_manter_eq, cliques_a_manter_eq, ← hu1]
  exact hfind

theorem claim6_witness :
    (todas_urls exGrouped2 (Rat.divInt 1 2) ⟨"a", kws10, 10⟩).find?
        (fun u => clicksOf exGrouped2 u ==
          (keywords_similares exGrouped2 (Rat.divInt 1 2) ⟨"a", kws10, 10⟩).cliquesAManter) =
      some ((keywords_similares exGrouped2 (Rat.divInt 1 2) ⟨"a", kws10, 10⟩).urlAManter) :=
  claim6_tiebreak exGrouped2 (Rat.divInt 1 2) ⟨"a", kws10, 10⟩ (by decide) (by decide)

/-- C7: for a fixed table and fixed source page, raising the threshold
never enlarges the set of qualifying candidates: every URL qualifying
at threshold `t2` also qualifies at any `t1 ≤ t2`. -/
theorem claim7_threshold_monotonic (grouped : List UrlProfile) (urlAtual : String)
    (kA : Finset String) (t1 t2 : ℚ) (hts : t1 ≤ t2) (u : String)
    (hu : u ∈ (similares_info urlAtual kA t2 grouped).map SimilarInfo.url) :
    u ∈ (similares_info urlAtual kA t1 grouped).map SimilarInfo.url := by
  rcases mem_url_similares_info.mp hu with ⟨e, he, hpage, hne, hle⟩
  exact mem_url_similares_info.mpr ⟨e, he, hpage, hne, le_trans hts hle⟩

theorem claim7_witness :
    "b" ∈ (similares_info "a" kws10 (Rat.divInt 1 2) exGrouped4).map SimilarInfo.url :=
  claim7_threshold_monotonic exGrouped4 "a" kws10 (Rat.divInt 1 2) (Rat.divInt 4 5)
    (by decide) "b" (by decide)

/-- C2: for a source page with at least 10 keywords, a URL is reported
in its `similares_info` candidate list exactly when it is another page
of the table whose shared-keyword count divided by the source page's
keyword-set size reaches the threshold; and the relation is asymmetric:
in `exGrouped4` at threshold 4/5, `a` qualifies `b` while `b` does not
qualify `a`. -/
theorem claim2_qualification :
    (∀ (grouped : List UrlProfile) (percent : ℚ) (A : UrlProfile),
      10 ≤ A.query.card →
      ∀ u : String,
        (u ∈ (similares_info A.page A.query percent grouped).map SimilarInfo.url ↔
          ∃ e, e ∈ grouped ∧ e.page = u ∧ u ≠ A.page ∧
            percent ≤ (((A.query ∩ e.query).card : ℚ)) / ((A.query.card : ℚ))))
    ∧ ("b" ∈ (similares_info "a" kws10 (Rat.divInt 4 5) exGrouped4).map SimilarInfo.url ∧
        "a" ∉ (similares_info "b" kws20 (Rat.divInt 4 5) exGrouped4).map SimilarInfo.url) := by
  constructor
  · intro grouped percent A _ u
    rw [mem_url_similares_info]
    constructor
    · rintro ⟨e, he, hpage, hne, hle⟩
      rw [percentual_similaridade_eq_div] at hle
      exact ⟨e, he, hpage, hne, hle⟩
    · rintro ⟨e, he, hpage, hne, hle⟩
      rw [← percentual_similaridade_eq_div] at hle
      exact ⟨e, he, hpage, hne, hle⟩
  · exact ⟨by decide, by decide⟩

theorem claim2_witness :
    "b" ∈ (similares_info "a" kws10 (Rat.divInt 4 5) exGrouped4).map SimilarInfo.url ↔
      ∃ e, e ∈ exGrouped4 ∧ e.page = "b" ∧ "b" ≠ "a" ∧
        (Rat.divInt 4 5) ≤ (((kws10 ∩ e.query).card : ℚ)) / ((kws10.card : ℚ)) :=
  claim2_qualification.1 exGrouped4 (Rat.divInt 4 5) ⟨"a", kws10, 5⟩ (by decide) "b"

/-- C3 (amended): a page sharing zero keywords with the source is never
reported at any positive threshold, but at threshold 0 every other page
of the table qualifies as a candidate — including pages sharing zero
keywords, because the code scans the whole table and `0 / |K_A| ≥ 0`
holds. -/
theorem claim3_zero_overlap :
    (∀ (grouped : List UrlProfile) (urlAtual : String) (kA : Finset String)
        (percent : ℚ) (u : String), 0 < percent →
      (∀ e, e ∈ grouped → e.page = u → kA ∩ e.query = ∅) →
      u ∉ (similares_info urlAtual kA percent grouped).map SimilarInfo.url)
    ∧ (∀ (grouped : List UrlProfile) (urlAtual : String) (kA : Finset String)
        (u : String), 10 ≤ kA.card → u ≠ urlAtual →
      (∃ e, e ∈ grouped ∧ e.page = u) →
      u ∈ (similares_info urlAtual kA 0 grouped).map SimilarInfo.url) := by
  constructor
  · intro grouped urlAtual kA percent u hpos hempty hu
    rcases mem_url_similares_info.mp hu with ⟨e, he, hpage, _, hle⟩
    have hint : kA ∩ e.query = ∅ := hempty e he hpage
    rw [percentual_similaridade_eq_div, hint] at hle
    simp only [Finset.card_empty, Nat.cast_zero, zero_div] at hle
    exact absurd hle (not_le.mpr hpos)
  · intro grouped urlAtual kA u h10 hne hex
    rcases hex with ⟨e, he, hpage⟩
    refine mem_url_similares_info.mpr ⟨e, he, hpage, hne, ?_⟩
    rw [percentual_similaridade_eq_div]
    exact div_nonneg (Nat.cast_nonneg _) (Nat.cast_nonneg _)

/-- C3 counterexample: pages `a` and `b` of `exGrouped3` share zero
keywords, yet at threshold 0 page `b` appears in `a`'s reported
similar-URL list — the code has no inverted index and a zero numerator
passes the `≥ 0` test. -/
theorem claim3_counterexample :
    kws10 ∩ ({"z0"} : Finset String) = ∅ ∧
      "b" ∈ (keywords_similares exGrouped3 0 ⟨"a", kws10, 100⟩).urlsSemelhantes :=
  ⟨by decide, by decide⟩

theorem claim3_witness :
    ("b" ∉ (similares_info "a" kws10 (Rat.divInt 1 2) exGrouped3).map SimilarInfo.url) ∧
      "b" ∈ (similares_info "a" kws10 0 exGrouped3).map SimilarInfo.url :=
  ⟨claim3_zero_overlap.1 exGrouped3 "a" kws10 (Rat.divInt 1 2) "b" (by decide) (by decide),
   claim3_zero_overlap.2 exGrouped3 "a" kws10 "b" (by decide) (by decide)
     ⟨⟨"b", {"z0"}, 1⟩, by decide, rfl⟩⟩

/-- C1 (amended): in every emitted result row, the kept URL is not
listed among its own members, and the member list is non-empty (rows
with no remaining qualifying neighbor are omitted); but member sets of
distinct emitted rows may intersect and representatives may coincide. -/
theorem claim1_groups (grouped : List UrlProfile) (percent : ℚ)
    (pr : String × ResultRow) (hpr : pr ∈ resultados_filtrados grouped percent) :
    pr.2.urlAManter ∉ pr.2.urlsSemelhantes ∧ 0 < pr.2.urlsSemelhantes.length := by
  unfold resultados_filtrados at hpr
  rw [List.mem_filter] at hpr
  rcases hpr with ⟨hmem, hlen⟩
  rw [decide_eq_true_eq] at hlen
  unfold resultados at hmem
  rw [List.mem_map] at hmem
  rcases hmem with ⟨e, _, hpr_eq⟩
  refine ⟨?_, hlen⟩
  rw [← hpr_eq]
  show (keywords_similares grouped percent e).urlAManter ∉
    (keywords_similares grouped percent e).urlsSemelhantes
  exact urlAManter_not_mem grouped percent e

theorem claim1_witness :
    exPr5.2.urlAManter ∉ exPr5.2.urlsSemelhantes ∧
      0 < exPr5.2.urlsSemelhantes.length :=
  claim1_groups exGrouped5 (Rat.divInt 1 2) exPr5 (by decide)

/-- C1 counterexample: on `exGrouped1` at threshold 1/2 the emitted
rows for `a` and for `c` both list `b` as a member and both keep `a` as
representative, so emitted groups are neither member-disjoint nor
representative-distinct. -/
theorem claim1_counterexample :
    ¬ (∀ pr1 ∈ resultados_filtrados exGrouped1 (Rat.divInt 1 2),
        ∀ pr2 ∈ resultados_filtrados exGrouped1 (Rat.divInt 1 2),
        pr1 ≠ pr2 →
          (∀ u ∈ pr1.2.urlsSemelhantes, u ∉ pr2.2.urlsSemelhantes) ∧
            pr1.2.urlAManter ≠ pr2.2.urlAManter) := by
  decide

/-- C5 (amended): no page with fewer than 10 keywords ever acts as a
comparison source — every emitted row's source page has at least 10
keywords — and such a page may still appear as a member of another
page's group; but, contrary to the original claim, it may also be
chosen as the representative of another page's group. -/
theorem claim5_min_keywords :
    (∀ (grouped : List UrlProfile) (percent : ℚ) (pr : String × ResultRow),
      pr ∈ resultados_filtrados grouped percent →
      ∃ e, e ∈ grouped ∧ e.page = pr.1 ∧ 10 ≤ e.query.card)
    ∧ ("d" ∈ (keywords_similares exGrouped5 (Rat.divInt 1 2)
          ⟨"a", kws10, 100⟩).urlsSemelhantes ∧
        ∀ e, e ∈ exGrouped5 → e.page = "d" → e.query.card < 10) := by
  constructor
  · intro grouped percent pr hpr
    unfold resultados_filtrados at hpr
    rw [List.mem_filter] at hpr
    rcases hpr with ⟨hmem, hlen⟩
    rw [decide_eq_true_eq] at hlen
    unfold resultados at hmem
    rw [List.mem_map] at hmem
    rcases hmem with ⟨e, he, hpr_eq⟩
    refine ⟨e, he, ?_, ?_⟩
    · rw [← hpr_eq]
    · by_contra hlt
      rw [Nat.not_le] at hlt
      have hsmall := keywords_similares_small grouped percent e hlt
      rw [← hpr_eq] at hlen
      replace hlen : 0 < (keywords_similares grouped percent e).urlsSemelhantes.length :=
        hlen
      rw [hsmall] at hlen
      exact absurd hlen (by simp [emptyResult])
  · exact ⟨by decide, by decide⟩

theorem claim5_witness :
    ∃ e, e ∈ exGrouped5 ∧ e.page = exPr5.1 ∧ 10 ≤ e.query.card :=
  claim5_min_keywords.1 exGrouped5 (Rat.divInt 1 2) exPr5 (by decide)

/-- C5 counterexample: on `exGrouped2` at threshold 1/2 both emitted
rows keep page `b`, which has only 5 keywords, as their representative:
a below-minimum page can be chosen as `URL a Manter`. -/
theorem claim5_counterexample :
    ¬ (∀ pr ∈ resultados_filtrados exGrouped2 (Rat.divInt 1 2),
        ∀ e ∈ exGrouped2, e.page = pr.2.urlAManter → 10 ≤ e.query.card) := by
  decide

/-- C9 (amended): the validation step keeps only rows with
non-negative click counts; rows with negative clicks are silently
dropped and the computation proceeds on the remaining rows — no error
is raised. -/
theorem claim9_negative_clicks (rows : List Row) (r : Row)
    (hr : r ∈ validate_and_clean_data rows) : 0 ≤ r.clicks := by
  unfold validate_and_clean_data at hr
  rw [List.mem_filter] at hr
  exact of_decide_eq_true hr.2

theorem claim9_witness : (0 : Int) ≤ (Row.mk "/b" "q2" 3).clicks :=
  claim9_negative_clicks exRows9 ⟨"/b", "q2", 3⟩ (by decide)

/-- C9 counterexample: the input `exRows9` holds a row with clicks -5;
`validate_and_clean_data` does not reject the input — it returns the
remaining valid row and the computation continues. -/
theorem claim9_counterexample :
    validate_and_clean_data exRows9 = [⟨"/b", "q2", 3⟩] ∧
      (validate_and_clean_data exRows9).length = 1 :=
  ⟨by decide, by decide⟩

theorem getD_map_eq {α β : Type} (f : α → β) (l : List α) (d : β) (dflt : α) :
    ∀ i : Nat, i < l.length → (l.map f).getD i d = f (l.getD i dflt) := by
  induction l with
  | nil => intro i hi; exact absurd hi (Nat.not_lt_zero i)
  | cons a t ih =>
    intro i hi
    cases i with
    | zero => rfl
    | succ n => exact ih n (Nat.lt_of_succ_lt_succ hi)

theorem getD_eq_get {α : Type} (l : List α) (d : α) :
    ∀ i : Nat, (h : i < l.length) → l.getD i d = l.get ⟨i, h⟩ := by
  induction l with
  | nil => intro i hi; exact absurd hi (Nat.not_lt_zero i)
  | cons a t ih =>
    intro i hi
    cases i with
    | zero => rfl
    | succ n => exact ih n (Nat.lt_of_succ_lt_succ hi)

/-- C10: in every result row the three evidence lists are index-aligned
with equal lengths; at each position the reported count equals the
length of the shared-term list, every listed term belongs to both the
source page's keyword set and the keyword set of the similar URL at the
same position, and the kept URL never appears in its own row's
similar-URL list. -/
theorem claim10_evidence (grouped : List UrlProfile) (percent : ℚ) (row : UrlProfile) :
    ((keywords_similares grouped percent row).termosCompartilhados.length =
        (keywords_similares grouped percent row).urlsSemelhantes.length ∧
      (keywords_similares grouped percent row).quantidadeTermos.length =
        (keywords_similares grouped percent row).urlsSemelhantes.length)
    ∧ (∀ i : Nat, i < (keywords_similares grouped percent row).urlsSemelhantes.length →
        (keywords_similares grouped percent row).quantidadeTermos.getD i 0 =
          ((keywords_similares grouped percent row).termosCompartilhados.getD i []).length
        ∧ ∀ term ∈ (keywords_similares grouped percent row).termosCompartilhados.getD i [],
            term ∈ row.query ∧
              ∃ e, e ∈ grouped ∧
                e.page =
                  (keywords_similares grouped percent row).urlsSemelhantes.getD i "" ∧
                term ∈ e.query)
    ∧ (keywords_similares grouped percent row).urlAManter ∉
        (keywords_similares grouped percent row).urlsSemelhantes := by
  refine ⟨?_, ?_, urlAManter_not_mem grouped percent row⟩
  · rcases keywords_similares_cases grouped percent row with hcase | ⟨h10, hne, hcase⟩
    · rw [hcase]
      exact ⟨rfl, rfl⟩
    · rw [hcase]
      constructor
      · show ((similares_final grouped percent row).map SimilarInfo.termos).length =
          ((similares_final grouped percent row).map SimilarInfo.url).length
        rw [List.length_map, List.length_map]
      · show ((similares_final grouped percent row).map SimilarInfo.quantidade).length =
          ((similares_final grouped percent row).map SimilarInfo.url).length
        rw [List.length_map, List.length_map]
  · rcases keywords_similares_cases grouped percent row with hcase | ⟨h10, hne, hcase⟩
    · rw [hcase]
      intro i hi
      exact absurd hi (by simp [emptyResult])
    · rw [hcase]
      intro i hi
      replace hi : i < (similares_final grouped percent row).length := by
        simpa using hi
      have hmem : (similares_final grouped percent row).getD i ⟨"", [], 0⟩ ∈
          similares_final grouped percent row := by
        rw [getD_eq_get _ _ i hi]
        exact List.get_mem _ _ _
      have hsims := (mem_similares_final.mp hmem).1
      rcases mem_similares_info.mp hsims with ⟨e, he, hne2, hle, hinfo_eq⟩
      have hterm_getD :
          ((similares_final grouped percent row).map SimilarInfo.termos).getD i [] =
            ((similares_final grouped percent row).getD i ⟨"", [], 0⟩).termos :=
        getD_map_eq _ _ _ _ i hi
      have hquant_getD :
          ((similares_final grouped percent row).map SimilarInfo.quantidade).getD i 0 =
            ((similares_final grouped percent row).getD i ⟨"", [], 0⟩).quantidade :=
        getD_map_eq _ _ _ _ i hi
      have hurl_getD :
          ((similares_final grouped percent row).map SimilarInfo.url).getD i "" =
            ((similares_final grouped percent row).getD i ⟨"", [], 0⟩).url :=
        getD_map_eq _ _ _ _ i hi
      constructor
      · show ((similares_final grouped percent row).map SimilarInfo.quantidade).getD i 0 =
          (((similares_final grouped percent row).map SimilarInfo.termos).getD i []).length
        rw [hquant_getD, hterm_getD, hinfo_eq]
        show (row.query ∩ e.query).card = (sortKeywords (row.query ∩ e.query)).length
        exact (sortKeywords_length _).symm
      · intro term hterm
        replace hterm : term ∈
            ((similares_final grouped percent row).map SimilarInfo.termos).getD i [] :=
          hterm
        rw [hterm_getD, hinfo_eq] at hterm
        replace hterm : term ∈ sortKeywords (row.query ∩ e.query) := hterm
        rw [sortKeywords_mem, Finset.mem_inter] at hterm
        refine ⟨hterm.1, e, he, ?_, hterm.2⟩
        show e.page = ((similares_final grouped percent row).map SimilarInfo.url).getD i ""
        rw [hurl_getD, hinfo_eq]

theorem claim10_witness :
    (keywords_similares exGrouped5 (Rat.divInt 1 2) ⟨"a", kws10, 100⟩).quantidadeTermos.getD 0 0 =
      ((keywords_similares exGrouped5 (Rat.divInt 1 2)
        ⟨"a", kws10, 100⟩).termosCompartilhados.getD 0 []).length :=
  ((claim10_evidence exGrouped5 (Rat.divInt 1 2) ⟨"a", kws10, 100⟩).2.1 0 (by decide)).1

theorem findEntry_cons (x : UrlProfile) (l : List UrlProfile) (p : String) :
    findEntry (x :: l) p = if x.page = p then some x else findEntry l p := by
  unfold findEntry
  rw [List.find?_cons]
  by_cases h : x.page = p
  · simp [h]
  · have hbeq : (x.page == p) = false := by
      rw [beq_eq_false_iff_ne]
      exact h
    simp [hbeq, h]

theorem insertRow_findEntry (r : Row) :
    ∀ (acc : List UrlProfile) (p : String),
    findEntry (insertRow acc r) p =
      if p = r.page then
        match findEntry acc p with
        | some e => some ⟨p, insert r.query e.query, e.urlClicks + r.clicks⟩
        | none => some ⟨r.page, {r.query}, r.clicks⟩
      else findEntry acc p := by
  intro acc
  induction acc with
  | nil =>
    intro p
    by_cases hp : p = r.page
    · subst hp
      simp [insertRow, findEntry, List.find?]
    · have hbeq : (r.page == p) = false := by
        rw [beq_eq_false_iff_ne]
        exact fun h => hp h.symm
      simp [insertRow, findEntry, List.find?, hbeq, hp]
  | cons a t ih =>
    intro p
    show findEntry
        (if r.page = a.page then
          ⟨a.page, insert r.query a.query, a.urlClicks + r.clicks⟩ :: t
        else a :: insertRow t r) p = _
    by_cases h1 : r.page = a.page
    · rw [if_pos h1, findEntry_cons, findEntry_cons]
      by_cases hp : p = r.page
      · have hap : a.page = p := by rw [hp, h1]
        rw [if_pos hp, if_pos hap, if_pos hap, hap]
      · have hap : ¬(a.page = p) := fun h => hp (h.symm.trans h1.symm)
        rw [if_neg hp, if_neg hap, if_neg hap]
    · rw [if_neg h1, findEntry_cons]
      by_cases hap : a.page = p
      · have hpr : ¬(p = r.page) := fun h => h1 ((hap.trans h).symm)
        rw [if_pos hap, if_neg hpr, findEntry_cons, if_pos hap]
      · rw [if_neg hap, ih p, findEntry_cons, if_neg hap]

theorem profileKeywords_snoc (rows : List Row) (r : Row) (p : String) :
    profileKeywords (rows ++ [r]) p =
      if r.page = p then insert r.query (profileKeywords rows p)
      else profileKeywords rows p := by
  unfold profileKeywords
  rw [List.filter_append]
  by_cases h : r.page = p
  · rw [if_pos h]
    have hf : List.filter (fun row => row.page == p) [r] = [r] := by
      simp [List.filter_cons, h]
    rw [hf, List.map_append, List.toFinset_append]
    show (List.map Row.query (List.filter (fun row => row.page == p) rows)).toFinset ∪
        [r.query].toFinset = _
    simp [Finset.insert_eq, Finset.union_comm]
  · rw [if_neg h]
    have hf : List.filter (fun row => row.page == p) [r] = [] := by
      simp [List.filter_cons, h]
    rw [hf, List.append_nil]

theorem profileClicks_snoc (rows : List Row) (r : Row) (p : String) :
    profileClicks (rows ++ [r]) p =
      if r.page = p then profileClicks rows p + r.clicks
      else profileClicks rows p := by
  unfold profileClicks
  rw [List.filter_append]
  by_cases h : r.page = p
  · rw [if_pos h]
    have hf : List.filter (fun row => row.page == p) [r] = [r] := by
      simp [List.filter_cons, h]
    rw [hf, List.map_append, List.sum_append]
    simp
  · rw [if_neg h]
    have hf : List.filter (fun row => row.page == p) [r] = [] := by
      simp [List.filter_cons, h]
    rw [hf, List.append_nil]

theorem profileKeywords_not_mem (rows : List Row) (p : String)
    (h : p ∉ rows.map Row.page) : profileKeywords rows p = ∅ := by
  unfold profileKeywords
  have hf : List.filter (fun row => row.page == p) rows = [] := by
    rw [List.filter_eq_nil_iff]
    intro a ha
    simp only [beq_iff_eq]
    exact fun hpa => h (List.mem_map.mpr ⟨a, ha, hpa⟩)
  rw [hf]
  rfl

theorem profileClicks_not_mem (rows : List Row) (p : String)
    (h : p ∉ rows.map Row.page) : profileClicks rows p = 0 := by
  unfold profileClicks
  have hf : List.filter (fun row => row.page == p) rows = [] := by
    rw [List.filter_eq_nil_iff]
    intro a ha
    simp only [beq_iff_eq]
    exact fun hpa => h (List.mem_map.mpr ⟨a, ha, hpa⟩)
  rw [hf]
  rfl

theorem foldl_findEntry (rows : List Row) (p : String) :
    findEntry (rows.foldl insertRow []) p =
      if p ∈ rows.map Row.page then
        some ⟨p, profileKeywords rows p, profileClicks rows p⟩
      else none := by
  induction rows using List.reverseRecOn with
  | nil => simp [findEntry]
  | append_singleton rs r ih =>
    rw [List.foldl_append]
    show findEntry (insertRow (rs.foldl insertRow []) r) p = _
    rw [insertRow_findEntry]
    by_cases hp : p = r.page
    · rw [if_pos hp, ih]
      by_cases hmem : p ∈ rs.map Row.page
      · rw [if_pos hmem]
        have hmem' : p ∈ (rs ++ [r]).map Row.page := by
          rw [List.map_append]
          exact List.mem_append_left _ hmem
        rw [if_pos hmem', profileKeywords_snoc, profileClicks_snoc,
          if_pos hp.symm, if_pos hp.symm]
      · rw [if_neg hmem]
        have hmem' : p ∈ (rs ++ [r]).map Row.page := by
          rw [List.map_append]
          refine List.mem_append_right _ ?_
          simp [hp]
        rw [if_pos hmem', profileKeywords_snoc, profileClicks_snoc,
          if_pos hp.symm, if_pos hp.symm,
          profileKeywords_not_mem rs p hmem, profileClicks_not_mem rs p hmem]
        subst hp
        simp
    · rw [if_neg hp, ih]
      have hiff : p ∈ (rs ++ [r]).map Row.page ↔ p ∈ rs.map Row.page := by
        rw [List.map_append, List.mem_append]
        simp [hp]
      have hrp : ¬(r.page = p) := fun h => hp h.symm
      rw [profileKeywords_snoc, profileClicks_snoc, if_neg hrp, if_neg hrp]
      by_cases hmem : p ∈ rs.map Row.page
      · rw [if_pos hmem, if_pos (hiff.mpr hmem)]
      · rw [if_neg hmem, if_neg (fun h => hmem (hiff.mp h))]

theorem insertRow_keys (r : Row) : ∀ acc : List UrlProfile,
    (insertRow acc r).map UrlProfile.page =
      if r.page ∈ acc.map UrlProfile.page then acc.map UrlProfile.page
      else acc.map UrlProfile.page ++ [r.page] := by
  intro acc
  induction acc with
  | nil => simp [insertRow]
  | cons a t ih =>
    by_cases h1 : r.page = a.page
    · show ((if r.page = a.page then
          ⟨a.page, insert r.query a.query, a.urlClicks + r.clicks⟩ :: t
        else a :: insertRow t r)).map UrlProfile.page = _
      rw [if_pos h1]
      have hmem : r.page ∈ (a :: t).map UrlProfile.page := by
        rw [List.map_cons, List.mem_cons]
        exact Or.inl h1
      rw [if_pos hmem]
      rfl
    · show ((if r.page = a.page then
          ⟨a.page, insert r.query a.query, a.urlClicks + r.clicks⟩ :: t
        else a :: insertRow t r)).map UrlProfile.page = _
      rw [if_neg h1, List.map_cons, ih]
      by_cases h2 : r.page ∈ t.map UrlProfile.page
      · rw [if_pos h2, if_pos (by rw [List.map_cons]; exact List.mem_cons_of_mem _ h2)]
        rfl
      · have hnmem : r.page ∉ (a :: t).map UrlProfile.page := by
          rw [List.map_cons, List.mem_cons]
          rintro (h | h)
          · exact h1 h
          · exact h2 h
        rw [if_neg h2, if_neg hnmem]
        rfl

theorem foldl_keys_nodup : ∀ (rows : List Row) (acc : List UrlProfile),
    (acc.map UrlProfile.page).Nodup →
    ((rows.foldl insertRow acc).map UrlProfile.page).Nodup := by
  intro rows
  induction rows with
  | nil => intro acc h; exact h
  | cons r t ih =>
    intro acc h
    show ((t.foldl insertRow (insertRow acc r)).map UrlProfile.page).Nodup
    apply ih
    rw [insertRow_keys]
    by_cases h2 : r.page ∈ acc.map UrlProfile.page
    · rw [if_pos h2]
      exact h
    · rw [if_neg h2]
      rw [List.nodup_append]
      refine ⟨h, List.nodup_singleton _, ?_⟩
      intro x hx hx2
      rw [List.mem_singleton] at hx2
      exact h2 (hx2 ▸ hx)

theorem mem_iff_findEntry : ∀ (l : List UrlProfile),
    (l.map UrlProfile.page).Nodup →
    ∀ e : UrlProfile, (e ∈ l ↔ findEntry l e.page = some e) := by
  intro l
  induction l with
  | nil => intro _ e; simp [findEntry]
  | cons a t ih =>
    intro hnd e
    rw [List.map_cons, List.nodup_cons] at hnd
    rw [findEntry_cons, List.mem_cons]
    by_cases hap : a.page = e.page
    · rw [if_pos hap]
      constructor
      · rintro (rfl | hmem)
        · rfl
        · have hpmem : e.page ∈ t.map UrlProfile.page :=
            List.mem_map_of_mem UrlProfile.page hmem
          rw [← hap] at hpmem
          exact absurd hpmem hnd.1
      · intro hsome
        exact Or.inl (Option.some_inj.mp hsome).symm
    · rw [if_neg hap, ih hnd.2 e]
      constructor
      · rintro (rfl | h)
        · exact absurd rfl hap
        · exact h
      · intro h
        exact Or.inr h

theorem mem_foldl_group (rows : List Row) (p : String) (ks : Finset String) (c : Int) :
    (⟨p, ks, c⟩ : UrlProfile) ∈ rows.foldl insertRow [] ↔
      (p ∈ rows.map Row.page ∧ ks = profileKeywords rows p ∧
        c = profileClicks rows p) := by
  rw [mem_iff_findEntry _ (foldl_keys_nodup rows [] (by simp)) _]
  show findEntry (rows.foldl insertRow []) p = some ⟨p, ks, c⟩ ↔ _
  rw [foldl_findEntry]
  by_cases hmem : p ∈ rows.map Row.page
  · rw [if_pos hmem, Option.some_inj]
    constructor
    · intro h
      rw [UrlProfile.mk.injEq] at h
      exact ⟨hmem, h.2.1.symm, h.2.2.symm⟩
    · rintro ⟨_, h2, h3⟩
      rw [h2, h3]
  · rw [if_neg hmem]
    simp [hmem]

/-- C8: an entry belongs to the grouped table exactly when its page
occurs in the input rows, its keyword set is the union of the queries
of all rows for that page, and its click total is the sum of the click
counts of all rows for that page. -/
theorem claim8_aggregation (rows : List Row) (p : String) (ks : Finset String)
    (c : Int) :
    (⟨p, ks, c⟩ : UrlProfile) ∈ group_data rows ↔
      (p ∈ rows.map Row.page ∧ ks = profileKeywords rows p ∧
        c = profileClicks rows p) := by
  unfold group_data
  rw [List.Perm.mem_iff (List.perm_insertionSort _ _)]
  exact mem_foldl_group rows p ks c

